import Mathlib

/-!
Verification development for the driver registry and dispatch engine of the
`engine` repository: language classification, driver catalog, UAST mode
normalization, dispatch, and the test helpers `combine`, `getArgCombinations`
and `TraceLogMessages` from the integration-test sources.
-/

namespace Engine

/-- Extraction mode of the normalizer (spec: `native`, `annotated`, `semantic`). -/
inductive Mode where
  | native
  | annotated
  | semantic


/-- Modelled from the spec: the Raw Tree returned by a Driver Client
(driver-specific node kind, named fields, optional token, ordered children);
the driver client itself is not under `src/`. -/
inductive RawTree where
  | node (kind : String) (props : List (String × String)) (token : Option String)
      (children : List RawTree)


/-- Modelled from the spec: the UAST Node — node kind tag, role annotations,
named properties, optional token, ordered children (positions omitted: no
claim mentions them). -/
inductive Node where
  | mk (kind : String) (roles : List String) (props : List (String × String))
      (token : Option String) (children : List Node)


/-- The typed error taxonomy of the spec (§7). -/
inductive DispatchError where
  | LanguageNotDetected
  | DriverNotInstalled
  | DriverUnavailable
  | DriverTimeout
  | DriverRejected
  | NormalizationIncomplete
  | QueryError


/-- The error kinds a Driver Client itself can produce (spec §4.3, §7):
transport and driver-side failures, never normalization failures. -/
inductive DriverError where
  | DriverUnavailable
  | DriverTimeout
  | DriverRejected


/-- Injection of driver-client errors into the dispatch error taxonomy. -/
def DriverError.toDispatch : DriverError → DispatchError
  | DriverError.DriverUnavailable => DispatchError.DriverUnavailable
  | DriverError.DriverTimeout => DispatchError.DriverTimeout
  | DriverError.DriverRejected => DispatchError.DriverRejected

/-- The fixed per-language role-mapping table: `((language, kind), role)`
entries (spec §4.4). -/
def RoleTable : Type := List ((String × String) × String)

/-- Look up the generic role for a driver-specific node kind of a language. -/
def lookupRole (table : RoleTable) (lang kind : String) : Option String :=
  (List.find? (fun e => e.1.1 == lang && e.1.2 == kind) table).map (fun e => e.2)

mutual
/-- Modelled from the spec: the Mode Normalizer (§4.4), not under `src/`.
`native` wraps the raw node losslessly (kind verbatim, every raw field a named
property); `annotated` additionally attaches the mapped role when the table
covers the kind, and silently keeps the native kind otherwise; `semantic`
replaces kinds by the generic role vocabulary, collapsing unmapped kinds to
the generic "Unknown" role.  Native and annotated mode reject a structurally
malformed raw node (empty kind tag) with `NormalizationIncomplete`. -/
def normalize (table : RoleTable) (mode : Mode) (lang : String) :
    RawTree → Except DispatchError Node
  | RawTree.node kind props token children =>
    match normalizeList table mode lang children with
    | Except.error e => Except.error e
    | Except.ok kids =>
      match mode with
      | Mode.native =>
        if kind == "" then Except.error DispatchError.NormalizationIncomplete
        else Except.ok (Node.mk kind [] props token kids)
      | Mode.annotated =>
        if kind == "" then Except.error DispatchError.NormalizationIncomplete
        else
          match lookupRole table lang kind with
          | some r => Except.ok (Node.mk kind [r] props token kids)
          | none => Except.ok (Node.mk kind [] props token kids)
      | Mode.semantic =>
        match lookupRole table lang kind with
        | some r => Except.ok (Node.mk r [r] props token kids)
        | none => Except.ok (Node.mk "Unknown" ["Unknown"] props token kids)

/-- Normalization of an ordered child list, first failure wins. -/
def normalizeList (table : RoleTable) (mode : Mode) (lang : String) :
    List RawTree → Except DispatchError (List Node)
  | [] => Except.ok []
  | t :: ts =>
    match normalize table mode lang t with
    | Except.error e => Except.error e
    | Except.ok n =>
      match normalizeList table mode lang ts with
      | Except.error e => Except.error e
      | Except.ok ns => Except.ok (n :: ns)
end

/-- Characters after the last dot of a name, `none` when no dot occurs. -/
def extOfAux : List Char → Option (List Char)
  | [] => none
  | '.' :: rest =>
    match extOfAux rest with
    | some e => some e
    | none => some rest
  | _ :: rest => extOfAux rest

/-- The file extension of a path: the segment after the last dot. -/
def extOf (name : String) : Option String :=
  (extOfAux name.data).map (fun cs => String.mk cs)

/-- Modelled from the spec: the static extension-to-language table of the
Language Classifier (§4.1), populated from the languages exercised by the
integration tests plus the `.pyw` alias named in the spec; the classifier
itself is not under `src/`. -/
def extTable : List (String × String) :=
  [("py", "python"), ("pyw", "python"), ("cpp", "c++"), ("java", "java"),
   ("js", "javascript"), ("bash", "shell"), ("rb", "ruby"), ("go", "go"),
   ("cs", "c#"), ("php", "php")]

/-- Extension lookup against the static table (first match; keys are unique). -/
def lookupExt (e : String) : Option String :=
  (List.find? (fun p => p.1 == e) extTable).map (fun p => p.2)

/-- Modelled from the spec: content-based fallback of the classifier
(shebang-line heuristics, §4.1), used only when extension lookup fails. -/
def shebangLang (c : String) : Option String :=
  if c = "#!/bin/bash" then some "shell"
  else if c = "#!/usr/bin/env python" then some "python"
  else none

/-- Modelled from the spec: `classify(path, contentSample?)` (§4.1) — extension
lookup first, content-based fallback when the extension is absent or unknown;
`none` is the `NotDetected` outcome.  The classifier is not under `src/`. -/
def classify (path : String) (content : Option String) : Option String :=
  match (extOf path).bind lookupExt with
  | some l => some l
  | none => content.bind shebangLang

/-- Modelled from the spec: a Driver Record of the Catalog (§3); endpoint and
install status are irrelevant to the claims and omitted. -/
structure DriverRecord where
  language : String
  version : String
deriving DecidableEq

/-- Modelled from the spec: the Driver Catalog state — one record per
installed language (§4.2); the catalog is not under `src/`. -/
def Catalog : Type := List DriverRecord

/-- Modelled from the spec: `list()` of the Driver Catalog (§4.2), the
installed records stably ordered by language identifier. -/
def Catalog.list (c : Catalog) : List DriverRecord :=
  c.mergeSort (fun a b => a.language ≤ b.language)

/-- Modelled from the spec: `get(language)` of the Driver Catalog (§4.2);
`none` is the `NotInstalled` outcome. -/
def Catalog.get (c : Catalog) (lang : String) : Option DriverRecord :=
  List.find? (fun r => r.language == lang) c

/-- Modelled from the spec: a Parse Request (§3); the structural query and the
timeout play no role in any claim and are omitted. -/
structure ParseRequest where
  path : String
  content : String
  langOverride : Option String
  mode : Mode

/-- Modelled from the spec: language resolution of the Dispatch Engine — the
explicit override from the request always wins and skips classification
entirely; otherwise the classifier runs on path and content (§4.1, §4.5). -/
def resolveLang (req : ParseRequest) : Option String :=
  match req.langOverride with
  | some l => some l
  | none => classify req.path (some req.content)

/-- The `Calling Driver` and `Normalizing` states of the Dispatch Engine
(§4.5): the driver call is the parameter `driverParse` (language and content
in, raw tree or driver-side error out), its failure mapped into the taxonomy,
its raw tree handed to the Mode Normalizer. -/
def dispatchCall (table : RoleTable)
    (driverParse : String → String → Except DriverError RawTree)
    (req : ParseRequest) (lang : String) : Except DispatchError Node :=
  match driverParse lang req.content with
  | Except.error e => Except.error e.toDispatch
  | Except.ok raw => normalize table req.mode lang raw

/-- The `Resolving Driver` state of the Dispatch Engine (§4.5): the catalog
holding no record for the resolved language is the typed
`DriverNotInstalled` failure. -/
def dispatchResolved (catalog : Catalog) (table : RoleTable)
    (driverParse : String → String → Except DriverError RawTree)
    (req : ParseRequest) (lang : String) : Except DispatchError Node :=
  match Catalog.get catalog lang with
  | none => Except.error DispatchError.DriverNotInstalled
  | some _ => dispatchCall table driverParse req lang

/-- Modelled from the spec: the Dispatch Engine (§4.5), not under `src/`:
Classifying → Resolving Driver → Calling Driver → Normalizing, each failure
terminal with its typed error. -/
def dispatch (catalog : Catalog) (table : RoleTable)
    (driverParse : String → String → Except DriverError RawTree)
    (req : ParseRequest) : Except DispatchError Node :=
  match resolveLang req with
  | none => Except.error DispatchError.LanguageNotDetected
  | some lang => dispatchResolved catalog table driverParse req lang

mutual
/-- Structural well-formedness of a raw tree: every node carries a non-empty
kind tag.  This is the shape `native`/`annotated` normalization demands. -/
def RawTree.wf : RawTree → Bool
  | RawTree.node kind _ _ children => !(kind == "") && RawTree.wfList children

/-- Well-formedness of a raw child list. -/
def RawTree.wfList : List RawTree → Bool
  | [] => true
  | t :: ts => RawTree.wf t && RawTree.wfList ts
end

mutual
/-- Reading a raw tree back out of a normalized node: kind, properties, token
and children verbatim, roles dropped. -/
def Node.toRaw : Node → RawTree
  | Node.mk kind _ props token children =>
    RawTree.node kind props token (Node.toRawList children)

/-- `Node.toRaw` over a child list. -/
def Node.toRawList : List Node → List RawTree
  | [] => []
  | n :: ns => Node.toRaw n :: Node.toRawList ns
end

/-- The serialized tree shape of the caller-facing result (§6): a
recursively nested structured document. -/
inductive Json where
  | null
  | str (s : String)
  | arr (xs : List Json)
  | obj (fields : List (String × Json))

/-- Serialization of a token field. -/
def encodeTok : Option String → Json
  | none => Json.null
  | some s => Json.str s

/-- Serialization of a role list. -/
def encodeStrs (l : List String) : List Json :=
  l.map Json.str

/-- Serialization of the named-property set. -/
def encodeProps (l : List (String × String)) : List (String × Json) :=
  l.map (fun p => (p.1, Json.str p.2))

mutual
/-- Modelled from the spec: serialization of a UAST Node into the
tree-shaped caller-facing document (§6); the serializer is not under `src/`. -/
def encodeNode : Node → Json
  | Node.mk kind roles props token children =>
    Json.obj [("kind", Json.str kind), ("roles", Json.arr (encodeStrs roles)),
      ("props", Json.obj (encodeProps props)), ("token", encodeTok token),
      ("children", Json.arr (encodeNodes children))]

/-- Serialization of an ordered child list. -/
def encodeNodes : List Node → List Json
  | [] => []
  | n :: ns => encodeNode n :: encodeNodes ns
end

/-- Parsing a token field back. -/
def decodeTok : Json → Option (Option String)
  | Json.null => some none
  | Json.str s => some (some s)
  | _ => none

/-- Parsing a role list back. -/
def decodeStrs : List Json → Option (List String)
  | [] => some []
  | Json.str s :: js =>
    match decodeStrs js with
    | some l => some (s :: l)
    | none => none
  | _ => none

/-- Parsing the named-property set back. -/
def decodeProps : List (String × Json) → Option (List (String × String))
  | [] => some []
  | (k, Json.str v) :: ps =>
    match decodeProps ps with
    | some l => some ((k, v) :: l)
    | none => none
  | _ => none

mutual
/-- A machine parse of the serialized document back into a UAST Node. -/
def decodeNode : Json → Option Node
  | Json.obj [("kind", Json.str kind), ("roles", Json.arr rs),
      ("props", Json.obj ps), ("token", tok), ("children", Json.arr cs)] =>
    match decodeStrs rs, decodeProps ps, decodeTok tok, decodeNodes cs with
    | some roles, some props, some token, some children =>
      some (Node.mk kind roles props token children)
    | _, _, _, _ => none
  | _ => none

/-- `decodeNode` over a serialized child list. -/
def decodeNodes : List Json → Option (List Node)
  | [] => some []
  | j :: js =>
    match decodeNode j, decodeNodes js with
    | some n, some ns => some (n :: ns)
    | _, _ => none
end

/-- A test case of the integration-test suite (`src/unnamed/part_000`):
path, file name and expected language. -/
structure testCase where
  path : String
  filename : String
  lang : String
deriving DecidableEq

/-- The test cases of `src/unnamed/part_000` (`filepath.FromSlash` is the
identity on slash-separated systems). -/
def testCases : List testCase :=
  [⟨"testdata/hello.py", "hello.py", "python"⟩,
   ⟨"testdata/hello-py3.py", "hello-py3.py", "python"⟩,
   ⟨"testdata/hello.cpp", "hello.cpp", "c++"⟩,
   ⟨"testdata/hello.java", "hello.java", "java"⟩,
   ⟨"testdata/hello.js", "hello.js", "javascript"⟩,
   ⟨"testdata/hello.bash", "hello.bash", "shell"⟩,
   ⟨"testdata/hello.rb", "hello.rb", "ruby"⟩,
   ⟨"testdata/hello.go", "hello.go", "go"⟩,
   ⟨"testdata/hello.cs", "hello.cs", "c#"⟩,
   ⟨"testdata/hello.php", "hello.php", "php"⟩]

/-- The `arg` type of `src/unnamed/part_000`: one argument vector. -/
abbrev arg : Type := List String

/-- The `args` type of `src/unnamed/part_000`: a list of argument vectors. -/
abbrev args : Type := List arg

/-- `combine` of `src/unnamed/part_000`: the two nested `for` loops appending
`v ++ w` to `out` for each `v` in `a` (outer) and `w` in `b` (inner).  The
`append(v, w...)` never overwrites a previously emitted vector: whenever the
backing array of `v` has spare capacity, the only preceding append of `v` was
with the empty `w`, which leaves `v` untouched, so the Go loop computes the
pure concatenations modelled here. -/
def combine (a b : args) : args :=
  a.foldl (fun out v => b.foldl (fun out w => out ++ [v ++ w]) out) []

/-- `getArgCombinations` of `src/unnamed/part_000`. -/
def getArgCombinations (tc : testCase) : args :=
  let uast : args := [["uast", tc.path]]
  let modes : args :=
    [[], ["--mode", "semantic"], ["--mode", "annotated"], ["--mode", "native"]]
  let langs : args := [[], ["--lang", tc.lang]]
  let queries : args := [[], ["--query", "/"]]
  combine (combine (combine uast modes) langs) queries

/-- The `LogMessage` record of `src/cmd/test-utils/common.go`. -/
structure LogMessage where
  Msg : String
  Time : String
  Level : String
deriving DecidableEq

/-- One step of the JSON stream decoder consumed by `TraceLogMessages`: a
successfully decoded `LogMessage`, or a decode error other than end-of-input
(malformed content); the end of the stream is end-of-input.  The decoder
itself is the `encoding/json` library, external to the repository. -/
inductive DecodeStep where
  | ok (m : LogMessage)
  | err

/-- The decode loop of `TraceLogMessages`: decode until end-of-input, panic
(`none`) on any other decode error, collecting the messages in order. -/
def decodeLoop : List DecodeStep → Option (List LogMessage)
  | [] => some []
  | DecodeStep.ok m :: rest =>
    match decodeLoop rest with
    | some l => some (m :: l)
    | none => none
  | DecodeStep.err :: _ => none

/-- `TraceLogMessages` of `src/cmd/test-utils/common.go`, the captured buffer
given by its decode-step stream: an empty buffer returns the nil slice
(`some []`) without decoding; otherwise the decode loop runs; `none` is the
panic. -/
def TraceLogMessages (buf : List DecodeStep) : Option (List LogMessage) :=
  if buf.isEmpty then some [] else decodeLoop buf

theorem normalize_semantic_total (table : RoleTable) (lang : String) (t : RawTree) :
    ∃ n, normalize table Mode.semantic lang t = Except.ok n := by
  refine @RawTree.rec
    (fun t => ∃ n, normalize table Mode.semantic lang t = Except.ok n)
    (fun ts => ∃ ns, normalizeList table Mode.semantic lang ts = Except.ok ns)
    ?_ ?_ ?_ t
  · intro kind props token children ih
    obtain ⟨ns, hns⟩ := ih
    rw [normalize, hns]
    cases lookupRole table lang kind <;> exact ⟨_, rfl⟩
  · exact ⟨[], rfl⟩
  · intro head tail ih1 ih2
    obtain ⟨n, hn⟩ := ih1
    obtain ⟨ns, hns⟩ := ih2
    exact ⟨n :: ns, by rw [normalizeList, hn, hns]⟩

/-- C1: for every raw tree and driver language, semantic-mode normalization
succeeds (so it never produces `NormalizationIncomplete`, whatever the gaps of
the role-mapping table), and a dispatched parse request in semantic mode never
fails with `NormalizationIncomplete`. -/
theorem semantic_never_incomplete :
    (∀ (table : RoleTable) (lang : String) (t : RawTree),
      ∃ n, normalize table Mode.semantic lang t = Except.ok n) ∧
    (∀ (catalog : Catalog) (table : RoleTable)
      (dp : String → String → Except DriverError RawTree) (req : ParseRequest),
      req.mode = Mode.semantic →
      dispatch catalog table dp req ≠
        Except.error DispatchError.NormalizationIncomplete) := by
  refine ⟨normalize_semantic_total, ?_⟩
  intro catalog table dp req hmode h
  rw [dispatch] at h
  cases hres : resolveLang req with
  | none => rw [hres] at h; simp at h
  | some lang =>
    rw [hres] at h
    dsimp only at h
    rw [dispatchResolved] at h
    cases hget : Catalog.get catalog lang with
    | none => rw [hget] at h; simp at h
    | some rec =>
      rw [hget] at h
      dsimp only at h
      rw [dispatchCall] at h
      cases hdp : dp lang req.content with
      | error e => rw [hdp] at h; cases e <;> simp [DriverError.toDispatch] at h
      | ok raw =>
        rw [hdp, hmode] at h
        dsimp only at h
        obtain ⟨n, hn⟩ := normalize_semantic_total table lang raw
        rw [hn] at h
        simp at h

/-- Witness for C1 at a concrete semantic-mode request with an installed
driver and a raw kind absent from the (empty) role table. -/
theorem semantic_never_incomplete_witness :
    dispatch [⟨"go", "v2.5.0"⟩] []
        (fun _ _ => Except.ok (RawTree.node "File" [] none []))
        ⟨"testdata/hello.go", "package main", none, Mode.semantic⟩ ≠
      Except.error DispatchError.NormalizationIncomplete :=
  semantic_never_incomplete.2 _ _ _ _ rfl

theorem extOfAux_no_dot : ∀ cs : List Char, '.' ∉ cs → extOfAux cs = none := by
  intro cs
  induction cs with
  | nil => intro _; rfl
  | cons c cs ih =>
    intro h
    rw [extOfAux.eq_3 c cs (fun hc => h (List.mem_cons.2 (Or.inl hc.symm)))]
    exact ih (fun hm => h (List.mem_cons_of_mem c hm))

theorem extOfAux_append_dot : ∀ (cs es : List Char), '.' ∉ es →
    extOfAux (cs ++ '.' :: es) = some es := by
  intro cs es hes
  induction cs with
  | nil =>
    rw [List.nil_append, extOfAux.eq_2, extOfAux_no_dot es hes]
  | cons c cs ih =>
    by_cases hc : c = '.'
    · subst hc
      rw [List.cons_append, extOfAux.eq_2, ih]
    · rw [List.cons_append, extOfAux.eq_3 c _ (fun h => hc h)]
      exact ih

/-- Any file name ending in `"." ++ e`, with `e` dot-free and in the lookup
table, classifies to the looked-up language, whatever the stem and content. -/
theorem classify_ext_append (stem e l : String) (hd : '.' ∉ e.data)
    (hl : lookupExt e = some l) (content : Option String) :
    classify (stem ++ "." ++ e) content = some l := by
  have hdata : (stem ++ "." ++ e).data = stem.data ++ '.' :: e.data := by
    rw [String.data_append, String.data_append]
    simp
  have hext : extOf (stem ++ "." ++ e) = some e := by
    rw [extOf, hdata, extOfAux_append_dot stem.data e.data hd]
    rfl
  rw [classify, hext]
  dsimp only [Option.bind]
  rw [hl]

/-- C2: for every extension of the static table, classifying any file whose
name ends in that dotted extension — arbitrary stem — yields the mapped
language, for any content sample; in particular the test-suite file names
classify to their expected languages. -/
theorem classify_known_extensions :
    (∀ p ∈ extTable, ∀ (stem : String) (content : Option String),
      classify (stem ++ "." ++ p.1) content = some p.2) ∧
    (∀ content : Option String, classify "hello-py3.py" content = some "python") ∧
    (∀ tc ∈ testCases, ∀ content : Option String,
      classify tc.path content = some tc.lang) := by
  refine ⟨?_, fun _ => rfl, ?_⟩
  · intro p hp stem content
    fin_cases hp <;> exact classify_ext_append stem _ _ (by decide) (by rfl) content
  · intro tc htc content
    fin_cases htc <;> rfl

/-- Witness for C2 at the `.py` table entry (stem "hello") and the
`hello.go` test case. -/
theorem classify_known_extensions_witness :
    classify ("hello" ++ "." ++ "py") none = some "python" ∧
    classify "testdata/hello.go" none = some "go" :=
  ⟨classify_known_extensions.1 ("py", "python") (by decide) "hello" none,
   classify_known_extensions.2.2 ⟨"testdata/hello.go", "hello.go", "go"⟩
     (by decide) none⟩

/-- C3 counterexample: with the explicit override, the path and the mode all
fixed, changing only the file content changes the dispatch result — the
content reaches the driver — so the result of an overridden request is not
"the same as if the file's own extension and content were arbitrary". -/
theorem override_content_counterexample :
    dispatch [⟨"python", "v2.8.0"⟩] []
        (fun _ c => Except.ok (RawTree.node "Module" [("source", c)] none []))
        ⟨"testdata/hello.py", "print 1", some "python", Mode.native⟩ ≠
      dispatch [⟨"python", "v2.8.0"⟩] []
        (fun _ c => Except.ok (RawTree.node "Module" [("source", c)] none []))
        ⟨"testdata/hello.py", "print 2", some "python", Mode.native⟩ := by
  intro h
  have h1 : dispatch [⟨"python", "v2.8.0"⟩] []
      (fun _ c => Except.ok (RawTree.node "Module" [("source", c)] none []))
      ⟨"testdata/hello.py", "print 1", some "python", Mode.native⟩ =
      Except.ok (Node.mk "Module" [] [("source", "print 1")] none []) := rfl
  have h2 : dispatch [⟨"python", "v2.8.0"⟩] []
      (fun _ c => Except.ok (RawTree.node "Module" [("source", c)] none []))
      ⟨"testdata/hello.py", "print 2", some "python", Mode.native⟩ =
      Except.ok (Node.mk "Module" [] [("source", "print 2")] none []) := rfl
  rw [h1, h2] at h
  simp at h

/-- C3 (amended): a request carrying an explicit language override resolves
to the override — classification is never consulted — and the dispatch result
is invariant under the request's path; the content still reaches the driver
call (only that dependence remains). -/
theorem override_wins :
    ∀ (catalog : Catalog) (table : RoleTable)
      (dp : String → String → Except DriverError RawTree)
      (L : String) (mode : Mode) (content p₁ p₂ : String),
      resolveLang ⟨p₁, content, some L, mode⟩ = some L ∧
      dispatch catalog table dp ⟨p₁, content, some L, mode⟩ =
        dispatch catalog table dp ⟨p₂, content, some L, mode⟩ :=
  fun _ _ _ _ _ _ _ _ => ⟨rfl, rfl⟩

/-- C4: `list()` of the catalog is a permutation of the installed records,
sorted by language identifier, stably (a pair already in order in the catalog
stays in that order), and two calls with no intervening mutation return
identical sequences. -/
theorem catalog_list_sorted :
    ∀ c : Catalog,
      List.Sorted (fun a b : DriverRecord => a.language ≤ b.language)
        (Catalog.list c) ∧
      (Catalog.list c).Perm c ∧
      (∀ a b : DriverRecord, a.language ≤ b.language →
        List.Sublist [a, b] c → List.Sublist [a, b] (Catalog.list c)) ∧
      Catalog.list c = Catalog.list c := by
  intro c
  have htrans : ∀ a b d : DriverRecord,
      decide (a.language ≤ b.language) = true →
      decide (b.language ≤ d.language) = true →
      decide (a.language ≤ d.language) = true := by
    intro a b d h1 h2
    simp only [decide_eq_true_eq] at h1 h2 ⊢
    exact le_trans h1 h2
  have htotal : ∀ a b : DriverRecord,
      (decide (a.language ≤ b.language) || decide (b.language ≤ a.language)) =
        true := by
    intro a b
    simp only [Bool.or_eq_true, decide_eq_true_eq]
    exact le_total _ _
  refine ⟨?_, List.mergeSort_perm c _, ?_, rfl⟩
  · have h := @List.sorted_mergeSort DriverRecord
      (fun a b => decide (a.language ≤ b.language)) htrans htotal c
    exact h.imp (fun hab => by simpa using hab)
  · intro a b hab hsub
    exact List.pair_sublist_mergeSort htrans htotal (by simpa using hab) hsub

/-- Witness for C4: stability of an already-ordered pair in a concrete
two-record catalog. -/
theorem catalog_list_sorted_witness :
    List.Sublist [DriverRecord.mk "go" "v2.4.0", DriverRecord.mk "go" "v2.5.0"]
      (Catalog.list
        [DriverRecord.mk "go" "v2.4.0", DriverRecord.mk "go" "v2.5.0"]) :=
  (catalog_list_sorted
      [DriverRecord.mk "go" "v2.4.0", DriverRecord.mk "go" "v2.5.0"]).2.2.1
    (DriverRecord.mk "go" "v2.4.0") (DriverRecord.mk "go" "v2.5.0")
    (le_refl "go") (List.Sublist.refl _)

/-- C6: normalization is deterministic — identical raw tree, mode, table and
language give identical UAST trees and identical serialized output. -/
theorem normalize_deterministic :
    ∀ (table : RoleTable) (mode : Mode) (lang : String) (t₁ t₂ : RawTree),
      t₁ = t₂ →
      normalize table mode lang t₁ = normalize table mode lang t₂ ∧
      (normalize table mode lang t₁).map encodeNode =
        (normalize table mode lang t₂).map encodeNode := by
  intro table mode lang t₁ t₂ h
  subst h
  exact ⟨rfl, rfl⟩

/-- Witness for C6 at a concrete raw tree. -/
theorem normalize_deterministic_witness :
    normalize [] Mode.semantic "go" (RawTree.node "File" [] none []) =
      normalize [] Mode.semantic "go" (RawTree.node "File" [] none []) ∧
    (normalize [] Mode.semantic "go" (RawTree.node "File" [] none [])).map
        encodeNode =
      (normalize [] Mode.semantic "go" (RawTree.node "File" [] none [])).map
        encodeNode :=
  normalize_deterministic [] Mode.semantic "go" _ _ rfl

/-- C7: when language resolution succeeds with a language the catalog holds
no record for, dispatch fails with `DriverNotInstalled` — never with
`LanguageNotDetected`: classification completed first. -/
theorem dispatch_driver_not_installed :
    ∀ (catalog : Catalog) (table : RoleTable)
      (dp : String → String → Except DriverError RawTree)
      (req : ParseRequest) (L : String),
      resolveLang req = some L → Catalog.get catalog L = none →
      dispatch catalog table dp req =
        Except.error DispatchError.DriverNotInstalled := by
  intro catalog table dp req L h1 h2
  rw [dispatch, h1]
  dsimp only
  rw [dispatchResolved, h2]

/-- Witness for C7: an empty catalog and a `.py` file whose language is
detected as "python". -/
theorem dispatch_driver_not_installed_witness :
    dispatch [] [] (fun _ _ => Except.ok (RawTree.node "Module" [] none []))
        ⟨"testdata/hello.py", "print 'Hello World'", none, Mode.native⟩ =
      Except.error DispatchError.DriverNotInstalled :=
  dispatch_driver_not_installed [] [] _ _ "python" rfl rfl

/-- C5: on every well-formed raw tree, native-mode normalization succeeds and
is lossless — reading the raw tree back out of the normalized node recovers
it exactly (kinds verbatim, every raw field a named property, nothing
dropped). -/
theorem native_mode_lossless :
    ∀ (table : RoleTable) (lang : String) (t : RawTree),
      RawTree.wf t = true →
      ∃ n, normalize table Mode.native lang t = Except.ok n ∧
        Node.toRaw n = t := by
  intro table lang t
  refine @RawTree.rec
    (fun t => RawTree.wf t = true →
      ∃ n, normalize table Mode.native lang t = Except.ok n ∧ Node.toRaw n = t)
    (fun ts => RawTree.wfList ts = true →
      ∃ ns, normalizeList table Mode.native lang ts = Except.ok ns ∧
        Node.toRawList ns = ts)
    ?_ ?_ ?_ t
  · intro kind props token children ih h
    simp only [RawTree.wf, Bool.and_eq_true, Bool.not_eq_true'] at h
    obtain ⟨ns, hns, hraw⟩ := ih h.2
    refine ⟨Node.mk kind [] props token ns, ?_, ?_⟩
    · rw [normalize, hns]
      dsimp only
      simp [h.1]
    · rw [Node.toRaw, hraw]
  · exact fun _ => ⟨[], rfl, rfl⟩
  · intro head tail ih1 ih2 h
    simp only [RawTree.wfList, Bool.and_eq_true] at h
    obtain ⟨n, hn, hr⟩ := ih1 h.1
    obtain ⟨ns, hns, hrs⟩ := ih2 h.2
    refine ⟨n :: ns, ?_, ?_⟩
    · rw [normalizeList, hn]
      dsimp only
      rw [hns]
    · rw [Node.toRawList, hr, hrs]

/-- Witness for C5 at a concrete two-node raw tree. -/
theorem native_mode_lossless_witness :
    ∃ n, normalize [] Mode.native "python"
        (RawTree.node "Module" [("key", "value")] (some "tok")
          [RawTree.node "Name" [] none []]) = Except.ok n ∧
      Node.toRaw n = RawTree.node "Module" [("key", "value")] (some "tok")
        [RawTree.node "Name" [] none []] :=
  native_mode_lossless [] "python" _ rfl

theorem decodeTok_encodeTok : ∀ t : Option String,
    decodeTok (encodeTok t) = some t := by
  intro t; cases t <;> rfl

theorem decodeStrs_encodeStrs : ∀ l : List String,
    decodeStrs (encodeStrs l) = some l := by
  intro l
  induction l with
  | nil => rfl
  | cons s ss ih =>
    show decodeStrs (Json.str s :: encodeStrs ss) = some (s :: ss)
    rw [decodeStrs, ih]

theorem decodeProps_encodeProps : ∀ l : List (String × String),
    decodeProps (encodeProps l) = some l := by
  intro l
  induction l with
  | nil => rfl
  | cons p ps ih =>
    show decodeProps ((p.1, Json.str p.2) :: encodeProps ps) = some (p :: ps)
    rw [decodeProps, ih]

/-- C8: the serialized caller-facing result is a single well-formed
recursively nested (hence acyclic) document: a machine parse of the
serialization recovers the UAST Node tree exactly. -/
theorem serialization_roundtrip :
    ∀ n : Node, decodeNode (encodeNode n) = some n := by
  intro n
  refine @Node.rec
    (fun n => decodeNode (encodeNode n) = some n)
    (fun ns => decodeNodes (encodeNodes ns) = some ns)
    ?_ ?_ ?_ n
  · intro kind roles props token children ih
    rw [encodeNode, decodeNode, decodeStrs_encodeStrs, decodeProps_encodeProps,
      decodeTok_encodeTok, ih]
  · rfl
  · intro n ns ih1 ih2
    rw [encodeNodes, decodeNodes, ih1, ih2]

theorem foldl_append_map (f : arg → arg) (b : args) :
    ∀ out : args, b.foldl (fun o w => o ++ [f w]) out = out ++ b.map f := by
  intro out
  induction b generalizing out with
  | nil => simp
  | cons w ws ih => simp [List.foldl_cons, ih]

theorem combine_flatMap : ∀ a b : args,
    combine a b = a.flatMap (fun v => b.map (fun w => v ++ w)) := by
  intro a b
  rw [combine]
  suffices h : ∀ out : args,
      a.foldl (fun out v => b.foldl (fun o w => o ++ [v ++ w]) out) out =
        out ++ a.flatMap (fun v => b.map (fun w => v ++ w)) by
    simpa using h []
  intro out
  induction a generalizing out with
  | nil => simp
  | cons v vs ih =>
    rw [List.foldl_cons, foldl_append_map (fun w => v ++ w) b out, ih]
    simp [List.flatMap_cons, List.append_assoc]

theorem combine_length : ∀ a b : args,
    (combine a b).length = a.length * b.length := by
  intro a b
  rw [combine_flatMap]
  induction a with
  | nil => simp
  | cons v vs ih => simp [List.flatMap_cons, ih, Nat.succ_mul, Nat.add_comm]

theorem combine_getElem :
    ∀ (a b : args) (i j : Nat), i < a.length → j < b.length →
      (combine a b)[i * b.length + j]? = (a[i]?.bind fun v => b[j]?.map
        fun w => v ++ w) := by
  intro a b i j hi hj
  rw [combine_flatMap]
  induction a generalizing i with
  | nil => simp at hi
  | cons v vs ih =>
    rw [List.flatMap_cons]
    cases i with
    | zero =>
      rw [List.getElem?_append, if_pos (by simpa using hj)]
      simp [List.getElem?_map]
    | succ k =>
      have hlen : (List.map (fun w => v ++ w) b).length ≤ (k + 1) * b.length + j := by
        simp [Nat.succ_mul]
        omega
      rw [List.getElem?_append_right hlen]
      have harith : (k + 1) * b.length + j - (List.map (fun w => v ++ w) b).length =
          k * b.length + j := by
        simp [Nat.succ_mul]
        omega
      rw [harith, ih k (by simpa using Nat.lt_of_succ_lt_succ hi)]
      simp

theorem mem_combine : ∀ (a b : args) (l : arg), l ∈ combine a b →
    ∃ v w, v ∈ a ∧ w ∈ b ∧ l = v ++ w := by
  intro a b l hl
  rw [combine_flatMap] at hl
  obtain ⟨v, hv, hw⟩ := List.mem_flatMap.1 hl
  obtain ⟨w, hw', rfl⟩ := List.mem_map.1 hw
  exact ⟨v, w, hv, hw', rfl⟩

theorem getArgCombinations_length :
    ∀ tc : testCase, (getArgCombinations tc).length = 16 := by
  intro tc
  rw [getArgCombinations]
  rw [combine_length, combine_length, combine_length]
  rfl

theorem getArgCombinations_head :
    ∀ tc : testCase, ∀ l ∈ getArgCombinations tc,
      ∃ rest, l = "uast" :: tc.path :: rest := by
  intro tc l hl
  rw [getArgCombinations] at hl
  obtain ⟨v3, q, hv3, hq, rfl⟩ := mem_combine _ _ _ hl
  obtain ⟨v2, la, hv2, hla, rfl⟩ := mem_combine _ _ _ hv3
  obtain ⟨v1, m, hv1, hm, rfl⟩ := mem_combine _ _ _ hv2
  have hu : v1 = ["uast", tc.path] := by simpa using hv1
  subst hu
  exact ⟨m ++ la ++ q, by simp⟩

/-- C9: `combine a b` is the list of the concatenations `v ++ w`, `a`'s index
outermost, of length `|a| * |b|`; hence `getArgCombinations` yields, for
every test case, exactly 16 argument combinations (1 uast form, 4 mode
choices, 2 lang choices, 2 query choices), each beginning with "uast" and
the test case's path. -/
theorem combine_spec :
    (∀ a b : args, combine a b = a.flatMap (fun v => b.map (fun w => v ++ w))) ∧
    (∀ a b : args, (combine a b).length = a.length * b.length) ∧
    (∀ (a b : args) (i j : Nat), i < a.length → j < b.length →
      (combine a b)[i * b.length + j]? = (a[i]?.bind fun v => b[j]?.map
        fun w => v ++ w)) ∧
    (∀ tc : testCase, (getArgCombinations tc).length = 16 ∧
      ∀ l ∈ getArgCombinations tc, ∃ rest, l = "uast" :: tc.path :: rest) :=
  ⟨combine_flatMap, combine_length, combine_getElem,
    fun tc => ⟨getArgCombinations_length tc, getArgCombinations_head tc⟩⟩

/-- Witness for C9: a concrete indexed lookup in a 1×2 combination and the
16 combinations of the `hello.py` test case. -/
theorem combine_spec_witness :
    (combine [["a"]] [["b"], ["c"]])[0 * 2 + 1]? =
      (([["a"]] : args)[0]?.bind fun v => ([["b"], ["c"]] : args)[1]?.map
        fun w => v ++ w) ∧
    (getArgCombinations ⟨"testdata/hello.py", "hello.py", "python"⟩).length =
      16 :=
  ⟨combine_spec.2.2.1 [["a"]] [["b"], ["c"]] 0 1 (by decide) (by decide),
   (combine_spec.2.2.2 ⟨"testdata/hello.py", "hello.py", "python"⟩).1⟩

theorem decodeLoop_ok : ∀ msgs : List LogMessage,
    decodeLoop (msgs.map DecodeStep.ok) = some msgs := by
  intro msgs
  induction msgs with
  | nil => rfl
  | cons m ms ih =>
    show decodeLoop (DecodeStep.ok m :: ms.map DecodeStep.ok) = some (m :: ms)
    rw [decodeLoop, ih]

theorem decodeLoop_err : ∀ (pre : List LogMessage) (post : List DecodeStep),
    decodeLoop (pre.map DecodeStep.ok ++ DecodeStep.err :: post) = none := by
  intro pre post
  induction pre with
  | nil => rfl
  | cons m ms ih =>
    show decodeLoop (DecodeStep.ok m ::
      (ms.map DecodeStep.ok ++ DecodeStep.err :: post)) = none
    rw [decodeLoop, ih]

/-- C10: `TraceLogMessages` returns the nil slice on an empty captured
buffer, one `LogMessage` per decoded object in order on a well-formed buffer,
and panics (`none`) as soon as the buffer holds content whose decoding fails
with anything other than end-of-input. -/
theorem traceLogMessages_spec :
    TraceLogMessages [] = some [] ∧
    (∀ msgs : List LogMessage,
      TraceLogMessages (msgs.map DecodeStep.ok) = some msgs) ∧
    (∀ (pre : List LogMessage) (post : List DecodeStep),
      TraceLogMessages (pre.map DecodeStep.ok ++ DecodeStep.err :: post) =
        none) := by
  refine ⟨rfl, ?_, ?_⟩
  · intro msgs
    cases msgs with
    | nil => rfl
    | cons m ms => exact decodeLoop_ok (m :: ms)
  · intro pre post
    cases pre with
    | nil => exact decodeLoop_err [] post
    | cons m ms => exact decodeLoop_err (m :: ms) post

end Engine
